import Mathlib

set_option autoImplicit false

namespace Phontom

/-- A Python string, modelled as its list of characters. -/
abbrev Line := List Char

/-- Python whitespace characters recognised by str.strip (ASCII range). -/
def isPySpace (c : Char) : Bool :=
  c = ' ' || c = '\t' || c = '\n' || c = '\r' || c = '\x0b' || c = '\x0c'

/-- Truthiness of line.strip(): true iff the line has a non-whitespace character.
This is the filter used by the compact stage in generator.py line 68. -/
def hasInk (l : Line) : Bool := l.any (fun c => !isPySpace c)

/-- The compact stage of BannerGenerator._apply_styling (generator.py line 68):
keep exactly the lines whose strip() is truthy, preserving order. -/
def compactLines (lines : List Line) : List Line := lines.filter hasInk

/-- A run of n space characters (Python repetition of a one-space string). -/
def spaces (n : Nat) : Line := List.replicate n ' '

/-- BorderStyle enum from styles.py lines 10-19. -/
inductive BorderStyle where
  | none
  | single
  | double
  | rounded
  | bold
  | ascii
  | star
  | hash
deriving DecidableEq

/-- ColorScheme enum from styles.py lines 29-38. -/
inductive ColorScheme where
  | default
  | rainbow
  | ocean
  | fire
  | forest
  | sunset
  | neon
  | monochrome
deriving DecidableEq

/-- The six glyphs of a border kind (styles.py get_border_chars).  Each glyph is a
Python string: the empty string for BorderStyle.NONE, a one-character string otherwise. -/
structure BorderChars where
  tl : Line
  tr : Line
  bl : Line
  br : Line
  h : Line
  v : Line
deriving DecidableEq

/-- The Style dataclass (styles.py lines 41-58) with its field defaults.
Python ints are modelled as Int, Python strings as String, None as Option.none.
The border field always holds a BorderStyle value in this embedding; the Python
constructor path that coerces a border string raises ValueError on unknown strings
and stores the enum otherwise, so the enum-typed field covers every non-raising state
reachable through the constructor. -/
structure Style where
  font : String := "standard"
  color : Option String := Option.none
  background_color : Option String := Option.none
  border : BorderStyle := BorderStyle.none
  border_color : Option String := Option.none
  padding : Int := 0
  width : Int := 80
  alignment : String := "left"
  compact : Bool := false
  shadow : Bool := false
  shadow_color : Option String := some "bright_black"
  bold : Bool := false
  italic : Bool := false
  underline : Bool := false
deriving DecidableEq

/-- The default Style() value (all dataclass defaults; __post_init__ leaves them unchanged). -/
def defaultStyle : Style := {}

instance : Inhabited Style := ⟨defaultStyle⟩

/-- Python str.lower, modelled character-wise (the alignment strings of interest are
ASCII, where Char.toLower agrees with Python). -/
def lowerStr (s : String) : String := ⟨s.data.map Char.toLower⟩

/-- Alignment normalization performed by Style.__post_init__ (styles.py lines 65-69):
lower-case the string and fall back to "left" when it is not one of the three values. -/
def normalizeAlignment (a : String) : String :=
  let a := lowerStr a
  if a = "left" ∨ a = "center" ∨ a = "right" then a else "left"

/-- Style.__post_init__ (styles.py lines 60-69) as a function on the field record:
normalizes the alignment field.  The border coercion branch is identity here because
the border field is already enum-typed (see the Style doc comment). -/
def Style.post_init (s : Style) : Style :=
  { s with alignment := normalizeAlignment s.alignment }

/-- Constructing Style(**fields): dataclass field assignment followed by __post_init__. -/
def mkStyle (s : Style) : Style := s.post_init

/-- Style.copy (styles.py lines 71-73): Style(**asdict(self)), i.e. rebuild from the
field dictionary, re-running __post_init__. -/
def Style.copy (s : Style) : Style := mkStyle s

/-- A **kwargs dictionary for Style.update: each field either absent or present with a
new value.  Unknown keys are ignored by the source (hasattr check) and are not
representable in the typed record. -/
structure StyleUpdate where
  font : Option String := Option.none
  color : Option (Option String) := Option.none
  background_color : Option (Option String) := Option.none
  border : Option BorderStyle := Option.none
  border_color : Option (Option String) := Option.none
  padding : Option Int := Option.none
  width : Option Int := Option.none
  alignment : Option String := Option.none
  compact : Option Bool := Option.none
  shadow : Option Bool := Option.none
  shadow_color : Option (Option String) := Option.none
  bold : Option Bool := Option.none
  italic : Option Bool := Option.none
  underline : Option Bool := Option.none

/-- Style.update (styles.py lines 75-79): setattr for each supplied key, with no
re-validation (no __post_init__ run).  The result is the new state of the receiver
object: the Python method mutates self in place and returns None. -/
def Style.update (s : Style) (kw : StyleUpdate) : Style :=
  { font := kw.font.getD s.font
    color := kw.color.getD s.color
    background_color := kw.background_color.getD s.background_color
    border := kw.border.getD s.border
    border_color := kw.border_color.getD s.border_color
    padding := kw.padding.getD s.padding
    width := kw.width.getD s.width
    alignment := kw.alignment.getD s.alignment
    compact := kw.compact.getD s.compact
    shadow := kw.shadow.getD s.shadow
    shadow_color := kw.shadow_color.getD s.shadow_color
    bold := kw.bold.getD s.bold
    italic := kw.italic.getD s.italic
    underline := kw.underline.getD s.underline }

/-- Style.apply_color_scheme (styles.py lines 217-256): batch update of color fields;
a scheme missing from the dictionary (DEFAULT) leaves the style unchanged. -/
def Style.apply_color_scheme (s : Style) (scheme : ColorScheme) : Style :=
  match scheme with
  | ColorScheme.rainbow =>
      s.update { color := some (some "gradient:red-yellow"),
                 border_color := some (some "magenta") }
  | ColorScheme.ocean =>
      s.update { color := some (some "gradient:blue-cyan"),
                 border_color := some (some "blue"),
                 shadow_color := some (some "bright_blue") }
  | ColorScheme.fire =>
      s.update { color := some (some "gradient:red-yellow"),
                 border_color := some (some "red"),
                 shadow_color := some (some "bright_red") }
  | ColorScheme.forest =>
      s.update { color := some (some "gradient:green-bright_green"),
                 border_color := some (some "green"),
                 shadow_color := some (some "green") }
  | ColorScheme.sunset =>
      s.update { color := some (some "gradient:magenta-yellow"),
                 border_color := some (some "magenta") }
  | ColorScheme.neon =>
      s.update { color := some (some "gradient:bright_magenta-bright_cyan"),
                 border_color := some (some "bright_magenta"),
                 shadow := some true }
  | ColorScheme.monochrome =>
      s.update { color := some (some "white"),
                 border_color := some (some "bright_black"),
                 shadow_color := some (some "bright_black") }
  | ColorScheme.default => s

/-- Style.get_border_chars (styles.py lines 100-136).  The dictionary lookup with
default NONE is a total match here because border is enum-typed. -/
def Style.get_border_chars (s : Style) : BorderChars :=
  match s.border with
  | BorderStyle.none => ⟨[], [], [], [], [], []⟩
  | BorderStyle.single => ⟨['┌'], ['┐'], ['└'], ['┘'], ['─'], ['│']⟩
  | BorderStyle.double => ⟨['╔'], ['╗'], ['╚'], ['╝'], ['═'], ['║']⟩
  | BorderStyle.rounded => ⟨['╭'], ['╮'], ['╰'], ['╯'], ['─'], ['│']⟩
  | BorderStyle.bold => ⟨['┏'], ['┓'], ['┗'], ['┛'], ['━'], ['┃']⟩
  | BorderStyle.ascii => ⟨['+'], ['+'], ['+'], ['+'], ['-'], ['|']⟩
  | BorderStyle.star => ⟨['*'], ['*'], ['*'], ['*'], ['*'], ['*']⟩
  | BorderStyle.hash => ⟨['#'], ['#'], ['#'], ['#'], ['#'], ['#']⟩

/-- BannerGenerator._apply_padding (generator.py lines 84-100): padding empty lines
before and after, then each original line wrapped in padding spaces.  Python
repetition of a string or range by a negative int yields nothing, hence toNat. -/
def apply_padding (lines : List Line) (padding : Int) : List Line :=
  List.replicate padding.toNat [] ++
    lines.map (fun line => spaces padding.toNat ++ line ++ spaces padding.toNat) ++
    List.replicate padding.toNat []

/-- Python str.ljust: pad on the right with spaces up to the requested width. -/
def ljust (l : Line) (w : Nat) : Line := l ++ spaces (w - l.length)

/-- max(len(line) for line in lines), as a fold with neutral element 0; it agrees with
the Python max on every non-empty list (lengths are non-negative), and the source
guards the empty case before computing it. -/
def maxWidth (lines : List Line) : Nat := (lines.map List.length).foldl max 0

/-- BannerGenerator._apply_border (generator.py lines 102-138). -/
def apply_border (lines : List Line) (style : Style) : List Line :=
  if lines = [] then lines
  else
    let max_width := maxWidth lines
    let bc := style.get_border_chars
    (bc.tl ++ List.flatten (List.replicate (max_width + 2) bc.h) ++ bc.tr) ::
      (lines.map (fun line => bc.v ++ [' '] ++ ljust line max_width ++ [' '] ++ bc.v) ++
        [bc.bl ++ List.flatten (List.replicate (max_width + 2) bc.h) ++ bc.br])

/-- The ANSI escape character. -/
def ESC : Char := Char.ofNat 27

/-- A colorama foreground code: ESC, then the bracketed numeric code, then m. -/
def ansiCode (digits : Line) : Line := ESC :: '[' :: (digits ++ ['m'])

/-- colorama Style.RESET_ALL. -/
def RESET_ALL : Line := ansiCode ['0']

/-- The color_map dictionary of BannerGenerator._apply_colors (generator.py lines
149-166): the sixteen colorama foreground codes keyed by color name.  Keys are
character lists because the source manipulates the color spec string character-wise. -/
def colorMap : List (Line × Line) :=
  [ (['b','l','a','c','k'], ansiCode ['3','0'])
  , (['r','e','d'], ansiCode ['3','1'])
  , (['g','r','e','e','n'], ansiCode ['3','2'])
  , (['y','e','l','l','o','w'], ansiCode ['3','3'])
  , (['b','l','u','e'], ansiCode ['3','4'])
  , (['m','a','g','e','n','t','a'], ansiCode ['3','5'])
  , (['c','y','a','n'], ansiCode ['3','6'])
  , (['w','h','i','t','e'], ansiCode ['3','7'])
  , (['b','r','i','g','h','t','_','b','l','a','c','k'], ansiCode ['9','0'])
  , (['b','r','i','g','h','t','_','r','e','d'], ansiCode ['9','1'])
  , (['b','r','i','g','h','t','_','g','r','e','e','n'], ansiCode ['9','2'])
  , (['b','r','i','g','h','t','_','y','e','l','l','o','w'], ansiCode ['9','3'])
  , (['b','r','i','g','h','t','_','b','l','u','e'], ansiCode ['9','4'])
  , (['b','r','i','g','h','t','_','m','a','g','e','n','t','a'], ansiCode ['9','5'])
  , (['b','r','i','g','h','t','_','c','y','a','n'], ansiCode ['9','6'])
  , (['b','r','i','g','h','t','_','w','h','i','t','e'], ansiCode ['9','7']) ]

/-- The sixteen color names of the palette. -/
def paletteNames : List Line := colorMap.map Prod.fst

/-- The sixteen decoration codes of the palette. -/
def colorCodes : List Line := colorMap.map Prod.snd

/-- Python dict.get(key, default-empty-string) over the assoc-list palette. -/
def colorGet (k : Line) : Line :=
  ((colorMap.find? (fun p => p.1 == k)).map Prod.snd).getD []

/-- Python (key in dict) over the assoc-list palette. -/
def colorKnown (k : Line) : Bool :=
  (colorMap.find? (fun p => p.1 == k)).isSome

/-- The literal string gradient-colon used as prefix tag of a gradient color spec. -/
def gradientTag : Line := ['g','r','a','d','i','e','n','t',':']

/-- Python str.replace(pat, rep) with fuel (one character of the subject is consumed
at every step, so fuel equal to the length of the subject suffices): scan left to
right, replacing non-overlapping occurrences of pat. -/
def replaceAllFuel (pat rep : Line) : Nat → Line → Line
  | 0, s => s
  | _ + 1, [] => []
  | fuel + 1, c :: rest =>
    if pat ≠ [] ∧ pat.isPrefixOf (c :: rest) then
      rep ++ replaceAllFuel pat rep fuel ((c :: rest).drop pat.length)
    else
      c :: replaceAllFuel pat rep fuel rest

/-- Python str.replace(pat, rep) for a non-empty pattern (the source only replaces the
constant gradient tag, which is non-empty; the empty-pattern behaviour of Python is
not needed and is mapped to the identity). -/
def replaceAll (pat rep s : Line) : Line := replaceAllFuel pat rep s.length s

/-- Python str.split(sep) for a one-character separator: always returns at least one
piece; a leading/trailing separator contributes an empty piece. -/
def splitOnChar (sep : Char) : Line → List Line
  | [] => [[]]
  | c :: rest =>
    if c = sep then [] :: splitOnChar sep rest
    else
      match splitOnChar sep rest with
      | [] => [[c]]
      | h :: t => (c :: h) :: t

/-- BannerGenerator._apply_gradient (generator.py lines 180-207).  Python enumerate is
List.enum; colors[i] on the parsed pieces is getD (str.split never returns an empty
list, so the IndexError path of a literal colors[0] is unreachable from the caller). -/
def apply_gradient (lines : List Line) (colors : List Line) : List Line :=
  let num_lines := lines.length
  if num_lines = 0 then lines
  else if colors.length = 2 ∧ (∀ c ∈ colors, colorKnown c) then
    let start_color := colorGet (colors.getD 0 [])
    let end_color := colorGet (colors.getD 1 [])
    lines.enum.map (fun p =>
      if p.1 < num_lines / 2 then start_color ++ p.2 ++ RESET_ALL
      else end_color ++ p.2 ++ RESET_ALL)
  else
    let color := colorGet (colors.getD 0 [])
    lines.map (fun line => color ++ line ++ RESET_ALL)

/-- BannerGenerator._apply_colors (generator.py lines 140-178), called with the color
spec string (the caller has already checked that style.color is set and non-empty). -/
def apply_colors (lines : List Line) (color : Line) : List Line :=
  if gradientTag.isPrefixOf color then
    apply_gradient lines (splitOnChar '-' (replaceAll gradientTag [] color))
  else
    let color_code := colorGet color
    lines.map (fun line => color_code ++ line ++ RESET_ALL)

/-- The line-level body of BannerGenerator._apply_styling (generator.py lines 62-82):
compact, pad, frame, colorize, each stage guarded exactly as in the source
(Python truthiness: a non-zero int and a non-empty string are truthy). -/
def styleLines (style : Style) (lines : List Line) : List Line :=
  let lines := if style.compact then compactLines lines else lines
  let lines := if style.padding ≠ 0 then apply_padding lines style.padding else lines
  let lines := if style.border ≠ BorderStyle.none then apply_border lines style else lines
  match style.color with
  | some c => if c ≠ "" then apply_colors lines c.toList else lines
  | Option.none => lines

/-- BannerGenerator._apply_styling (generator.py lines 62-82): split the ascii art on
newlines, run the stage pipeline, join with newlines. -/
def apply_styling (style : Style) (ascii_art : Line) : Line :=
  List.intercalate ['\n'] (styleLines style (splitOnChar '\n' ascii_art))

/-- The failure modes of the external glyph renderer (pyfiglet): the FontNotFound
condition that the facade catches, and any other error, which it lets propagate. -/
inductive FigletError where
  | fontNotFound
  | otherError
deriving DecidableEq

/-- The external glyph renderer: text, font name, width, justification, returning the
rendered multi-line string or failing.  pyfiglet is outside the repository; the facade
theorems quantify over every renderer. -/
abbrev GlyphRenderer := String → String → Int → String → Except FigletError Line

/-- BannerGenerator._generate_ascii_art (generator.py lines 48-60): one render attempt
with the style font, width and alignment; a FontNotFound failure is retried once with
the fallback font standard at the pyfiglet defaults (width 80, justify auto), and the
outcome of that retry, success or failure, is final.  Any other failure of the first
attempt propagates. -/
def generate_ascii_art (R : GlyphRenderer) (text : String) (style : Style) :
    Except FigletError Line :=
  match R text style.font style.width style.alignment with
  | Except.error FigletError.fontNotFound => R text "standard" 80 "auto"
  | r => r

/-- A heap of Style objects: Python object identity is an index into the heap, so that
in-place mutation of a shared instance is observable.  Allocation appends. -/
structure Heap where
  objs : List Style

/-- Number of live objects. -/
def Heap.size (h : Heap) : Nat := h.objs.length

/-- Dereference (default style for a dangling reference, which no modelled operation
creates). -/
def Heap.get (h : Heap) (r : Nat) : Style := h.objs.getD r defaultStyle

/-- Overwrite the object at a reference. -/
def Heap.set (h : Heap) (r : Nat) (s : Style) : Heap := ⟨h.objs.set r s⟩

/-- Allocate a fresh object, returning the new heap and the fresh reference. -/
def Heap.alloc (h : Heap) (s : Style) : Heap × Nat := (⟨h.objs ++ [s]⟩, h.objs.length)

/-- style.copy() as a heap operation: Style(**asdict(self)) allocates a fresh object
initialized from the receiver's fields (re-running __post_init__). -/
def Heap.copyStyle (h : Heap) (r : Nat) : Heap × Nat := h.alloc (h.get r).copy

/-- style.update(**kwargs) as a heap operation: setattr mutates the receiver object in
place; no new object is allocated and the method returns None. -/
def Heap.updateStyle (h : Heap) (r : Nat) (kw : StyleUpdate) : Heap :=
  h.set r ((h.get r).update kw)

/-- The BannerGenerator object state (generator.py lines 12-24): the text, a reference
to the stored style object, and the two render caches. -/
structure BannerGenerator where
  text : String
  styleRef : Nat
  ascii_art : Option Line := Option.none
  styled_output : Option Line := Option.none

/-- BannerGenerator.render (generator.py lines 26-46): copy the stored style, update
the copy with the call kwargs, generate the ascii art (with font fallback), style it,
cache and return it.  A renderer failure propagates as the call's failure. -/
def BannerGenerator.render (g : BannerGenerator) (h : Heap) (kw : StyleUpdate)
    (R : GlyphRenderer) : Except FigletError (Heap × BannerGenerator × Line) :=
  let hc := h.copyStyle g.styleRef
  let h2 := hc.1.updateStyle hc.2 kw
  let render_style := h2.get hc.2
  match generate_ascii_art R g.text render_style with
  | Except.error e => Except.error e
  | Except.ok art =>
      let out := apply_styling render_style art
      Except.ok (h2, { g with ascii_art := some art, styled_output := some out }, out)

/-- A concrete renderer used to witness the facade theorems: it knows only the font
standard, failing with FontNotFound on every other font name. -/
def onlyStandardRenderer : GlyphRenderer := fun _ font _ _ =>
  if font = "standard" then Except.ok ['H', 'I'] else Except.error FigletError.fontNotFound

/-- A concrete fully-featured style (single border, padding, color, compact) used by
the rectangularity witness. -/
def rectWitnessStyle : Style :=
  { defaultStyle with
      border := BorderStyle.single, padding := 2, color := some "red", compact := true }

/-- Concrete render-call inputs used by the render-state witness. -/
def renderWitnessHeap : Heap := ⟨[{ defaultStyle with padding := 1 }]⟩

/-- The generator of the render-state witness. -/
def renderWitnessGen : BannerGenerator := ⟨"HI", 0, Option.none, Option.none⟩

/-- The kwargs of the render-state witness. -/
def renderWitnessKw : StyleUpdate := { color := some (some "red") }

/-- The heap after the witness render call. -/
def renderWitnessHeap2 : Heap :=
  Heap.updateStyle (renderWitnessHeap.copyStyle 0).1 (renderWitnessHeap.copyStyle 0).2
    renderWitnessKw

/-- The effective style of the witness render call. -/
def renderWitnessStyle : Style := renderWitnessHeap2.get (renderWitnessHeap.copyStyle 0).2

/-- The generator state after the witness render call. -/
def renderWitnessGen2 : BannerGenerator :=
  { renderWitnessGen with
      ascii_art := some ['H', 'I'],
      styled_output := some (apply_styling renderWitnessStyle ['H', 'I']) }

/-- The output of the witness render call. -/
def renderWitnessOut : Line := apply_styling renderWitnessStyle ['H', 'I']

/-- Visible (decoration-exclusive) length of a line: strip one leading palette color
code if present, one trailing reset code if present, and measure what is left. -/
def stripColorCode (l : Line) : Line :=
  match colorCodes.find? (fun c => c.isPrefixOf l) with
  | some c => l.drop c.length
  | Option.none => l

/-- Strip a trailing reset code if present. -/
def stripReset (l : Line) : Line :=
  if RESET_ALL.isSuffixOf l then l.take (l.length - RESET_ALL.length) else l

/-- The visible length of a (possibly decorated) line. -/
def visibleLen (l : Line) : Nat := (stripReset (stripColorCode l)).length

/-- A line free of the escape character, i.e. carrying no decoration. -/
def escFree (l : Line) : Prop := ESC ∉ l

instance escFreeDecidable (l : Line) : Decidable (escFree l) :=
  inferInstanceAs (Decidable (ESC ∉ l))

/-- Modelled from the spec: the pad stage as the spec describes it (section 4.3, Pad),
where the p inserted blank lines are themselves prefixed and suffixed with p space
characters.  This is the comparison definition for the refinement claim about the pad
stage, not a translation of the source. -/
def padSpec (lines : List Line) (p : Nat) : List Line :=
  List.replicate p (spaces (2 * p)) ++
    lines.map (fun line => spaces p ++ line ++ spaces p) ++
    List.replicate p (spaces (2 * p))

theorem foldl_max_init (l : List Nat) (b : Nat) : l.foldl max b = max b (l.foldl max 0) := by
  induction l generalizing b with
  | nil => simp
  | cons a l ih => simp only [List.foldl_cons]; rw [ih (max b a), ih (max 0 a)]; omega

theorem maxWidth_cons (l : Line) (ls : List Line) :
    maxWidth (l :: ls) = max l.length (maxWidth ls) := by
  unfold maxWidth
  simp only [List.map_cons, List.foldl_cons]
  rw [foldl_max_init]
  omega

theorem maxWidth_append (xs ys : List Line) :
    maxWidth (xs ++ ys) = max (maxWidth xs) (maxWidth ys) := by
  induction xs with
  | nil => simp [maxWidth]
  | cons a as ih => rw [List.cons_append, maxWidth_cons, maxWidth_cons, ih]; omega

theorem le_maxWidth_of_mem {l : Line} {lines : List Line} (h : l ∈ lines) :
    l.length ≤ maxWidth lines := by
  induction lines with
  | nil => cases h
  | cons a as ih =>
    rw [maxWidth_cons]
    rcases List.mem_cons.mp h with h | h
    · subst h; omega
    · have := ih h; omega

theorem maxWidth_replicate_nil (n : Nat) : maxWidth (List.replicate n ([] : Line)) = 0 := by
  induction n with
  | zero => rfl
  | succ n ih => rw [List.replicate_succ, maxWidth_cons, ih]; rfl

theorem maxWidth_map_wrap (k : Nat) (lines : List Line) (hne : lines ≠ []) :
    maxWidth (lines.map (fun l => spaces k ++ l ++ spaces k)) = maxWidth lines + 2 * k := by
  induction lines with
  | nil => cases hne rfl
  | cons a as ih =>
    rw [List.map_cons, maxWidth_cons, maxWidth_cons]
    have hlen : (spaces k ++ a ++ spaces k).length = a.length + 2 * k := by
      simp [spaces]; omega
    rw [hlen]
    cases as with
    | nil => simp [maxWidth]
    | cons b bs => rw [ih (by simp)]; omega

/-- C9: the compact stage (drop blank and whitespace-only lines) is idempotent, and is
the identity on a block with no blank lines. -/
theorem compact_idempotent (lines : List Line) :
    compactLines (compactLines lines) = compactLines lines ∧
    ((∀ l ∈ lines, hasInk l) → compactLines lines = lines) := by
  constructor
  · simp [compactLines, List.filter_filter]
  · intro h; exact List.filter_eq_self.mpr h

/-- C9 witness: idempotence and identity at a concrete block. -/
theorem compact_idempotent_witness :
    compactLines (compactLines [['a'], [' ']]) = compactLines [['a'], [' ']] ∧
    compactLines [['a'], ['b']] = [['a'], ['b']] :=
  ⟨(compact_idempotent [['a'], [' ']]).1, (compact_idempotent [['a'], ['b']]).2 (by decide)⟩

/-- C6 counterexample: the pad stage does not prefix the inserted blank lines with
padding spaces -- at lines ["a"], padding 1, the source keeps the inserted vertical
padding lines empty, while the claim requires them to carry the space padding. -/
theorem pad_inserted_lines_not_prefixed : apply_padding [['a']] 1 ≠ padSpec [['a']] 1 := by
  decide

/-- C6 as amended: the pad stage prepends and appends p blank lines that stay empty,
wraps every original line in p spaces on both sides, grows the height by exactly 2p,
and (on a non-empty input) grows the maximum width by exactly 2p. -/
theorem pad_additivity (lines : List Line) (p : Int) (_hp : 0 < p) :
    apply_padding lines p =
      List.replicate p.toNat [] ++
        lines.map (fun l => spaces p.toNat ++ l ++ spaces p.toNat) ++
        List.replicate p.toNat [] ∧
    (apply_padding lines p).length = lines.length + 2 * p.toNat ∧
    (lines ≠ [] → maxWidth (apply_padding lines p) = maxWidth lines + 2 * p.toNat) := by
  refine ⟨rfl, ?_, ?_⟩
  · simp [apply_padding]; omega
  · intro hne
    unfold apply_padding
    rw [maxWidth_append, maxWidth_append, maxWidth_replicate_nil,
      maxWidth_map_wrap _ _ hne]
    omega

/-- C6 witness: padding additivity at lines ["ab", "c"], padding 2. -/
theorem pad_additivity_witness :
    (apply_padding [['a', 'b'], ['c']] 2).length = 2 + 2 * (2 : Int).toNat ∧
    maxWidth (apply_padding [['a', 'b'], ['c']] 2) = maxWidth [['a', 'b'], ['c']] + 2 * (2 : Int).toNat :=
  ⟨(pad_additivity [['a', 'b'], ['c']] 2 (by decide)).2.1,
   (pad_additivity [['a', 'b'], ['c']] 2 (by decide)).2.2 (by decide)⟩

theorem colorGet_eq_nil_of_not_mem (k : Line) (hk : k ∉ paletteNames) : colorGet k = [] := by
  unfold colorGet
  rw [List.find?_eq_none.mpr]
  · rfl
  · intro x hx h
    rw [beq_iff_eq] at h
    exact hk (h ▸ List.mem_map_of_mem Prod.fst hx)

/-- C2 counterexample: colorizing with an unknown plain color name is not the exact
identity on the lines -- a reset suffix is still appended to every line. -/
theorem unknown_color_adds_reset :
    apply_colors [['a']] ['n', 'o', 't', 'a', 'c', 'o', 'l', 'o', 'r'] ≠ [['a']] := by
  decide

/-- C2 as amended: for every plain (non-gradient) color spec outside the 16-name
palette, colorization adds no color code, leaves every line's text intact, appends
only the reset suffix to each line, and raises no error (the function is total). -/
theorem unknown_color_reset_passthrough (lines : List Line) (color : Line)
    (hg : gradientTag.isPrefixOf color = false) (hk : color ∉ paletteNames) :
    apply_colors lines color = lines.map (fun line => line ++ RESET_ALL) := by
  unfold apply_colors
  rw [if_neg (by simp [hg])]
  rw [colorGet_eq_nil_of_not_mem color hk]
  simp

/-- C2 witness: the unknown-color behaviour at a concrete line list. -/
theorem unknown_color_reset_passthrough_witness :
    apply_colors [['a']] ['n', 'o', 't', 'a', 'c', 'o', 'l', 'o', 'r'] =
      [['a']].map (fun line => line ++ RESET_ALL) :=
  unknown_color_reset_passthrough [['a']] ['n', 'o', 't', 'a', 'c', 'o', 'l', 'o', 'r']
    (by decide) (by decide)

/-- C7 counterexample: Style.update performs no re-validation, so updating the
alignment with an unrecognized string leaves the instance with an alignment outside
the three enumerated values. -/
theorem update_bypasses_alignment_normalization :
    (defaultStyle.update { alignment := some "diagonal" }).alignment ≠ "left" ∧
    (defaultStyle.update { alignment := some "diagonal" }).alignment ≠ "center" ∧
    (defaultStyle.update { alignment := some "diagonal" }).alignment ≠ "right" := by
  decide

/-- C7 as amended: construction (and copy, which reconstructs, and apply_color_scheme,
which touches only color fields) normalizes the alignment into the three enumerated
values, an unrecognized alignment string falling back to left; Style.update performs
no such normalization (see the counterexample).  The border field is enum-typed
throughout this embedding. -/
theorem alignment_normalized_on_construction :
    (∀ s : Style, (mkStyle s).alignment = "left" ∨ (mkStyle s).alignment = "center" ∨
      (mkStyle s).alignment = "right") ∧
    (∀ s : Style, s.copy.alignment = "left" ∨ s.copy.alignment = "center" ∨
      s.copy.alignment = "right") ∧
    (∀ (s : Style) (scheme : ColorScheme),
      (s.apply_color_scheme scheme).alignment = s.alignment ∧
      (s.apply_color_scheme scheme).border = s.border) ∧
    (∀ a : String, lowerStr a ≠ "left" → lowerStr a ≠ "center" → lowerStr a ≠ "right" →
      (mkStyle { defaultStyle with alignment := a }).alignment = "left") := by
  have base : ∀ s : Style, (mkStyle s).alignment = "left" ∨ (mkStyle s).alignment = "center" ∨
      (mkStyle s).alignment = "right" := by
    intro s
    show normalizeAlignment s.alignment = "left" ∨ normalizeAlignment s.alignment = "center" ∨
      normalizeAlignment s.alignment = "right"
    by_cases h : lowerStr s.alignment = "left" ∨ lowerStr s.alignment = "center" ∨
        lowerStr s.alignment = "right"
    · simp only [normalizeAlignment]; rw [if_pos h]; exact h
    · simp only [normalizeAlignment]; rw [if_neg h]; left; rfl
  refine ⟨base, fun s => base s, ?_, ?_⟩
  · intro s scheme; cases scheme <;> exact ⟨rfl, rfl⟩
  · intro a h1 h2 h3
    show normalizeAlignment a = "left"
    simp only [normalizeAlignment]
    rw [if_neg]
    rintro (h | h | h) <;> contradiction

/-- C7 witness: constructing with an unrecognized alignment string yields left. -/
theorem alignment_normalized_on_construction_witness :
    (mkStyle { defaultStyle with alignment := "DIAGONAL" }).alignment = "left" :=
  alignment_normalized_on_construction.2.2.2 "DIAGONAL" (by decide) (by decide) (by decide)

theorem heap_get_set_ne (h : Heap) (r1 r2 : Nat) (s : Style) (hn : r1 ≠ r2) :
    (h.set r1 s).get r2 = h.get r2 := by
  simp only [Heap.set, Heap.get, List.getD_eq_getElem?_getD]
  rw [List.getElem?_set_ne hn]

theorem heap_get_set_eq (h : Heap) (r : Nat) (s : Style) (hr : r < h.size) :
    (h.set r s).get r = s := by
  simp only [Heap.set, Heap.get, List.getD_eq_getElem?_getD]
  rw [List.getElem?_set_eq_of_lt s hr]
  rfl

theorem heap_get_alloc_old (h : Heap) (s : Style) (r : Nat) (hr : r < h.size) :
    (h.alloc s).1.get r = h.get r := by
  simp only [Heap.alloc, Heap.get, List.getD_eq_getElem?_getD]
  rw [List.getElem?_append_left hr]

theorem heap_get_alloc_new (h : Heap) (s : Style) :
    (h.alloc s).1.get (h.alloc s).2 = s := by
  simp only [Heap.alloc, Heap.get, List.getD_eq_getElem?_getD]
  rw [List.getElem?_concat_length]
  rfl

/-- Copy-then-update does not touch the object at the copied-from reference. -/
theorem get_after_copy_update (h : Heap) (r : Nat) (kw : StyleUpdate) (hr : r < h.size) :
    (Heap.updateStyle (h.copyStyle r).1 (h.copyStyle r).2 kw).get r = h.get r := by
  unfold Heap.updateStyle
  rw [heap_get_set_ne _ _ _ _ (by simp only [Heap.copyStyle, Heap.alloc, Heap.size] at *; omega)]
  exact heap_get_alloc_old h _ r hr

/-- Copy-then-update stores, at the fresh reference, the copy with the updates applied. -/
theorem get_fresh_after_copy_update (h : Heap) (r : Nat) (kw : StyleUpdate) :
    (Heap.updateStyle (h.copyStyle r).1 (h.copyStyle r).2 kw).get (h.copyStyle r).2 =
      ((h.get r).copy).update kw := by
  unfold Heap.updateStyle
  rw [heap_get_set_eq _ _ _ (by simp [Heap.copyStyle, Heap.alloc, Heap.size])]
  rw [show (h.copyStyle r).1.get (h.copyStyle r).2 = (h.get r).copy from heap_get_alloc_new h _]

/-- C3 counterexample: Style.update mutates the receiver in place -- after
s.update(padding=5) the object every holder of s references has changed. -/
theorem update_mutates_in_place :
    (Heap.updateStyle ⟨[defaultStyle]⟩ 0 { padding := some 5 }).get 0 ≠
      (Heap.mk [defaultStyle]).get 0 := by
  decide

/-- C3 as amended: Style.update itself mutates the receiver in place (see the
counterexample); a logically new updated Style is produced by the copy-then-update
idiom (as render uses it), which carries the updated fields at the fresh object and
leaves the original instance, still referenced by other holders, unchanged. -/
theorem copy_update_preserves_original (h : Heap) (r : Nat) (kw : StyleUpdate)
    (hr : r < h.size) :
    (Heap.updateStyle (h.copyStyle r).1 (h.copyStyle r).2 kw).get r = h.get r ∧
    (Heap.updateStyle (h.copyStyle r).1 (h.copyStyle r).2 kw).get (h.copyStyle r).2 =
      ((h.get r).copy).update kw :=
  ⟨get_after_copy_update h r kw hr, get_fresh_after_copy_update h r kw⟩

/-- C3 witness: copy-then-update at a concrete one-object heap. -/
theorem copy_update_preserves_original_witness :
    (Heap.updateStyle ((⟨[defaultStyle]⟩ : Heap).copyStyle 0).1
        ((⟨[defaultStyle]⟩ : Heap).copyStyle 0).2 { padding := some 5 }).get 0 =
      (⟨[defaultStyle]⟩ : Heap).get 0 :=
  (copy_update_preserves_original ⟨[defaultStyle]⟩ 0 { padding := some 5 } (by decide)).1

/-- C8: on a font-not-found failure of the requested font, the facade retries exactly
once with the fallback font standard: the whole outcome is the outcome of that single
retry, so a successful retry (guaranteed non-empty for the always-present standard
font) is returned, FontNotFound itself never propagates, and only a failure of the
retry propagates as the rendering error. -/
theorem font_fallback (R : GlyphRenderer) (text : String) (style : Style)
    (hmiss : R text style.font style.width style.alignment =
      Except.error FigletError.fontNotFound) :
    generate_ascii_art R text style = R text "standard" 80 "auto" ∧
    (∀ b : Line, R text "standard" 80 "auto" = Except.ok b → b ≠ [] →
      generate_ascii_art R text style = Except.ok b ∧ b ≠ []) ∧
    (∀ e : FigletError, R text "standard" 80 "auto" = Except.error e →
      generate_ascii_art R text style = Except.error e) := by
  have hgen : generate_ascii_art R text style = R text "standard" 80 "auto" := by
    unfold generate_ascii_art
    rw [hmiss]
  exact ⟨hgen, fun b hb hne => ⟨hgen.trans hb, hne⟩, fun e he => hgen.trans he⟩

/-- C8 witness: a renderer that knows only standard falls back and succeeds on an
unknown font name. -/
theorem font_fallback_witness :
    generate_ascii_art onlyStandardRenderer "HI" { defaultStyle with font := "nofont" } =
      Except.ok ['H', 'I'] ∧ (['H', 'I'] : Line) ≠ [] :=
  (font_fallback onlyStandardRenderer "HI" { defaultStyle with font := "nofont" }
      (by rfl)).2.1 ['H', 'I'] (by rfl) (by decide)

/-- C10: render applies the call kwargs only to a copy of the stored style: when a
render call succeeds, the generator text, its stored style reference, and the style
object that reference points at are all unchanged. -/
theorem render_preserves_generator_state (h : Heap) (g : BannerGenerator) (kw : StyleUpdate)
    (R : GlyphRenderer) (h' : Heap) (g' : BannerGenerator) (out : Line)
    (hr : g.styleRef < h.size)
    (hok : g.render h kw R = Except.ok (h', g', out)) :
    h'.get g.styleRef = h.get g.styleRef ∧ g'.text = g.text ∧ g'.styleRef = g.styleRef := by
  unfold BannerGenerator.render at hok
  dsimp only at hok
  cases hart : generate_ascii_art R g.text
      ((Heap.updateStyle (h.copyStyle g.styleRef).1 (h.copyStyle g.styleRef).2 kw).get
        (h.copyStyle g.styleRef).2) with
  | error e => rw [hart] at hok; cases hok
  | ok art =>
    rw [hart] at hok
    simp only [Except.ok.injEq, Prod.mk.injEq] at hok
    obtain ⟨hh, hg, -⟩ := hok
    refine ⟨?_, ?_, ?_⟩
    · rw [← hh]; exact get_after_copy_update h g.styleRef kw hr
    · rw [← hg]
    · rw [← hg]

/-- C10 witness: a concrete successful render leaves the generator state intact. -/
theorem render_preserves_generator_state_witness :
    renderWitnessHeap2.get 0 = renderWitnessHeap.get 0 ∧
    renderWitnessGen2.text = renderWitnessGen.text ∧
    renderWitnessGen2.styleRef = renderWitnessGen.styleRef :=
  render_preserves_generator_state renderWitnessHeap renderWitnessGen renderWitnessKw
    onlyStandardRenderer renderWitnessHeap2 renderWitnessGen2 renderWitnessOut
    (by decide) rfl

theorem flatten_replicate_singleton (n : Nat) (c : Char) :
    List.flatten (List.replicate n [c]) = List.replicate n c := by
  induction n with
  | zero => rfl
  | succ n ih => rw [List.replicate_succ, List.flatten_cons, ih, List.replicate_succ]; rfl

theorem length_ljust (l : Line) (w : Nat) : (ljust l w).length = max w l.length := by
  simp [ljust, spaces]
  omega

/-- For every border kind other than none, the six glyphs are one-character strings,
none of them the escape character. -/
theorem border_glyphs_singleton (style : Style) (hb : style.border ≠ BorderStyle.none) :
    ∃ c1 c2 c3 c4 c5 c6 : Char,
      style.get_border_chars = ⟨[c1], [c2], [c3], [c4], [c5], [c6]⟩ ∧
      c1 ≠ ESC ∧ c2 ≠ ESC ∧ c3 ≠ ESC ∧ c4 ≠ ESC ∧ c5 ≠ ESC ∧ c6 ≠ ESC := by
  cases h : style.border with
  | none => exact absurd h hb
  | single =>
      exact ⟨'┌', '┐', '└', '┘', '─', '│', by simp [Style.get_border_chars, h],
        by decide, by decide, by decide, by decide, by decide, by decide⟩
  | double =>
      exact ⟨'╔', '╗', '╚', '╝', '═', '║', by simp [Style.get_border_chars, h],
        by decide, by decide, by decide, by decide, by decide, by decide⟩
  | rounded =>
      exact ⟨'╭', '╮', '╰', '╯', '─', '│', by simp [Style.get_border_chars, h],
        by decide, by decide, by decide, by decide, by decide, by decide⟩
  | bold =>
      exact ⟨'┏', '┓', '┗', '┛', '━', '┃', by simp [Style.get_border_chars, h],
        by decide, by decide, by decide, by decide, by decide, by decide⟩
  | ascii =>
      exact ⟨'+', '+', '+', '+', '-', '|', by simp [Style.get_border_chars, h],
        by decide, by decide, by decide, by decide, by decide, by decide⟩
  | star =>
      exact ⟨'*', '*', '*', '*', '*', '*', by simp [Style.get_border_chars, h],
        by decide, by decide, by decide, by decide, by decide, by decide⟩
  | hash =>
      exact ⟨'#', '#', '#', '#', '#', '#', by simp [Style.get_border_chars, h],
        by decide, by decide, by decide, by decide, by decide, by decide⟩

/-- C5: for every non-empty line list and border kind other than none, framing yields
a top rule, the side-bordered right-padded content lines, and a mirrored bottom rule;
the height grows by exactly 2 and every output line has width maxWidth + 4; an empty
input list is returned unchanged. -/
theorem frame_geometry (style : Style) (hb : style.border ≠ BorderStyle.none) :
    apply_border [] style = [] ∧
    ∀ lines : List Line, lines ≠ [] →
      apply_border lines style =
        (style.get_border_chars.tl ++
            List.flatten (List.replicate (maxWidth lines + 2) style.get_border_chars.h) ++
            style.get_border_chars.tr) ::
          (lines.map (fun line => style.get_border_chars.v ++ [' '] ++
              ljust line (maxWidth lines) ++ [' '] ++ style.get_border_chars.v) ++
            [style.get_border_chars.bl ++
              List.flatten (List.replicate (maxWidth lines + 2) style.get_border_chars.h) ++
              style.get_border_chars.br]) ∧
      (apply_border lines style).length = lines.length + 2 ∧
      (∀ l ∈ apply_border lines style, l.length = maxWidth lines + 4) := by
  refine ⟨by simp [apply_border], ?_⟩
  intro lines hne
  have hstruct : apply_border lines style =
      (style.get_border_chars.tl ++
          List.flatten (List.replicate (maxWidth lines + 2) style.get_border_chars.h) ++
          style.get_border_chars.tr) ::
        (lines.map (fun line => style.get_border_chars.v ++ [' '] ++
            ljust line (maxWidth lines) ++ [' '] ++ style.get_border_chars.v) ++
          [style.get_border_chars.bl ++
            List.flatten (List.replicate (maxWidth lines + 2) style.get_border_chars.h) ++
            style.get_border_chars.br]) := by
    simp only [apply_border, if_neg hne]
  refine ⟨hstruct, ?_, ?_⟩
  · rw [hstruct]
    simp
  · obtain ⟨c1, c2, c3, c4, c5, c6, hbc, h1, h2, h3, h4, h5, h6⟩ :=
      border_glyphs_singleton style hb
    intro l hl
    rw [hstruct, hbc] at hl
    simp only [List.mem_cons, List.mem_append, List.mem_map, List.mem_singleton] at hl
    rcases hl with rfl | ⟨a, ha, rfl⟩ | rfl | hf
    · rw [flatten_replicate_singleton]
      simp
    · have hle := le_maxWidth_of_mem ha
      simp [length_ljust]
      omega
    · rw [flatten_replicate_singleton]
      simp
    · cases hf

/-- C5 witness: border additivity at a concrete two-line block with the ascii kind. -/
theorem frame_geometry_witness :
    (apply_border [['a', 'b'], ['c']] { defaultStyle with border := BorderStyle.ascii }).length =
      2 + 2 :=
  ((frame_geometry { defaultStyle with border := BorderStyle.ascii } (by decide)).2
    [['a', 'b'], ['c']] (by decide)).2.1

theorem enumFrom_map_if_ge {f g : Line → Line} (m : Nat) :
    ∀ (lines : List Line) (j : Nat), m ≤ j →
      (List.enumFrom j lines).map (fun p => if p.1 < m then f p.2 else g p.2) =
        lines.map g := by
  intro lines
  induction lines with
  | nil => intro j _; rfl
  | cons a as ih =>
      intro j hj
      rw [List.enumFrom_cons, List.map_cons, List.map_cons]
      rw [if_neg (by omega), ih (j + 1) (by omega)]

theorem enumFrom_map_if_split (f g : Line → Line) :
    ∀ (lines : List Line) (i k : Nat),
      (List.enumFrom i lines).map (fun p => if p.1 < i + k then f p.2 else g p.2) =
        (lines.take k).map f ++ (lines.drop k).map g := by
  intro lines
  induction lines with
  | nil => intro i k; simp
  | cons a as ih =>
      intro i k
      cases k with
      | zero =>
          rw [Nat.add_zero, List.take_zero, List.drop_zero, List.map_nil, List.nil_append]
          exact enumFrom_map_if_ge i (a :: as) i (le_refl i)
      | succ k =>
          rw [List.enumFrom_cons, List.map_cons, if_pos (by omega), List.take_succ_cons,
            List.drop_succ_cons, List.map_cons, List.cons_append]
          rw [show i + (k + 1) = i + 1 + k from by omega]
          rw [ih (i + 1) k]

theorem palette_known : ∀ c ∈ paletteNames, colorKnown c = true := by decide

theorem palette_parse :
    ∀ a ∈ paletteNames, ∀ b ∈ paletteNames,
      gradientTag.isPrefixOf (gradientTag ++ a ++ '-' :: b) = true ∧
      splitOnChar '-' (replaceAll gradientTag [] (gradientTag ++ a ++ '-' :: b)) = [a, b] := by
  decide

/-- C4 as amended: for a gradient spec with two palette stops a and b, the first
floor(n/2) lines receive a's decoration and the remaining lines receive b's
decoration, each line with a reset suffix; in every other case (wrong stop count or an
unresolved stop) the first parsed color's decoration (the empty decoration when it is
unknown) is applied uniformly -- but still with the reset suffix appended to every
line, so an unknown first stop does not return the bare lines. -/
theorem gradient_bisection_and_fallback (lines : List Line) (a b : Line)
    (ha : a ∈ paletteNames) (hb : b ∈ paletteNames) :
    apply_colors lines (gradientTag ++ a ++ '-' :: b) =
      (lines.take (lines.length / 2)).map (fun l => colorGet a ++ l ++ RESET_ALL) ++
        (lines.drop (lines.length / 2)).map (fun l => colorGet b ++ l ++ RESET_ALL) ∧
    (∀ colors : List Line,
      ¬ (colors.length = 2 ∧ ∀ c ∈ colors, colorKnown c) →
      apply_gradient lines colors =
        lines.map (fun line => colorGet (colors.getD 0 []) ++ line ++ RESET_ALL)) := by
  constructor
  · obtain ⟨hpre, hparse⟩ := palette_parse a ha b hb
    unfold apply_colors
    rw [if_pos hpre, hparse]
    simp only [apply_gradient]
    by_cases hn : lines.length = 0
    · rw [if_pos hn]
      have hnil : lines = [] := List.length_eq_zero.mp hn
      subst hnil
      simp
    · rw [if_neg hn, if_pos ?hcond]
      case hcond =>
        refine ⟨rfl, ?_⟩
        intro c hc
        rcases List.mem_cons.mp hc with rfl | hc2
        · exact palette_known c ha
        · rcases List.mem_cons.mp hc2 with rfl | hf
          · exact palette_known c hb
          · cases hf
      show (List.enumFrom 0 lines).map _ = _
      have hsplit := enumFrom_map_if_split (fun l => colorGet a ++ l ++ RESET_ALL)
        (fun l => colorGet b ++ l ++ RESET_ALL) lines 0 (lines.length / 2)
      rw [Nat.zero_add] at hsplit
      simpa using hsplit
  · intro colors hcond
    simp only [apply_gradient]
    by_cases hn : lines.length = 0
    · rw [if_pos hn]
      have hnil : lines = [] := List.length_eq_zero.mp hn
      subst hnil
      simp
    · rw [if_neg hn, if_neg hcond]

/-- C4 counterexample: with an unknown first gradient stop the source still appends
the reset code to every line, so the output is not the undecorated input. -/
theorem gradient_unknown_adds_reset :
    apply_colors [['x']] (gradientTag ++ ['f', 'o', 'o', '-', 'b', 'a', 'r']) ≠ [['x']] := by
  decide

/-- C4 witness: gradient bisection at a concrete three-line block with red and cyan. -/
theorem gradient_bisection_and_fallback_witness :
    apply_colors [['u'], ['v'], ['w']]
        (gradientTag ++ ['r', 'e', 'd'] ++ '-' :: ['c', 'y', 'a', 'n']) =
      ([['u'], ['v'], ['w']].take 1).map
          (fun l => colorGet ['r', 'e', 'd'] ++ l ++ RESET_ALL) ++
        ([['u'], ['v'], ['w']].drop 1).map
          (fun l => colorGet ['c', 'y', 'a', 'n'] ++ l ++ RESET_ALL) :=
  (gradient_bisection_and_fallback [['u'], ['v'], ['w']] ['r', 'e', 'd'] ['c', 'y', 'a', 'n']
    (by decide) (by decide)).1

theorem colorCodes_length : ∀ c ∈ colorCodes, c.length = 5 := by decide

theorem colorCodes_head : ∀ c ∈ colorCodes, c.headD ' ' = ESC ∧ c ≠ [] := by decide

theorem code_not_prefix_plain {c l : Line} (hc : c ∈ colorCodes) (he : escFree l) :
    ¬ c <+: l := by
  intro hpre
  obtain ⟨hhd, hne⟩ := colorCodes_head c hc
  obtain ⟨hd, tl, rfl⟩ := List.exists_cons_of_ne_nil hne
  obtain ⟨t, rfl⟩ := hpre
  apply he
  have hesc : hd = ESC := by simpa using hhd
  subst hesc
  exact List.mem_append_left t (List.mem_cons_self _ _)

theorem code_not_prefix_reset {c l : Line} (hc : c ∈ colorCodes) (he : escFree l) :
    ¬ c <+: (l ++ RESET_ALL) := by
  intro hpre
  obtain ⟨hhd, hne⟩ := colorCodes_head c hc
  cases l with
  | nil =>
      have h5 : c.length = 5 := colorCodes_length c hc
      have hle := hpre.length_le
      simp [RESET_ALL, ansiCode] at hle
      omega
  | cons x xs =>
      obtain ⟨hd, tl, rfl⟩ := List.exists_cons_of_ne_nil hne
      obtain ⟨t, heq⟩ := hpre
      rw [List.cons_append, List.cons_append] at heq
      injection heq with h1 h2
      apply he
      have hesc : hd = ESC := by simpa using hhd
      rw [← h1, hesc]
      exact List.mem_cons_self _ _

theorem stripReset_append (l : Line) : stripReset (l ++ RESET_ALL) = l := by
  unfold stripReset
  rw [if_pos]
  · rw [List.length_append,
      show l.length + RESET_ALL.length - RESET_ALL.length = l.length from by omega,
      List.take_left]
  · simp only [List.isSuffixOf_iff_suffix]
    exact List.suffix_append l RESET_ALL

theorem stripColorCode_of_escFree (l : Line) (he : escFree l) : stripColorCode l = l := by
  unfold stripColorCode
  have hnone : colorCodes.find? (fun c => c.isPrefixOf l) = Option.none := by
    rw [List.find?_eq_none]
    intro c hc
    simp only [List.isPrefixOf_iff_prefix]
    exact code_not_prefix_plain hc he
  rw [hnone]

theorem stripColorCode_reset_of_escFree (l : Line) (he : escFree l) :
    stripColorCode (l ++ RESET_ALL) = l ++ RESET_ALL := by
  unfold stripColorCode
  have hnone : colorCodes.find? (fun c => c.isPrefixOf (l ++ RESET_ALL)) = Option.none := by
    rw [List.find?_eq_none]
    intro c hc
    simp only [List.isPrefixOf_iff_prefix]
    exact code_not_prefix_reset hc he
  rw [hnone]

theorem visibleLen_code (d l : Line) (hd : d ∈ colorCodes) :
    visibleLen (d ++ l ++ RESET_ALL) = l.length := by
  unfold visibleLen stripColorCode
  have hd5 : d.length = 5 := colorCodes_length d hd
  have hpref : d.isPrefixOf (d ++ l ++ RESET_ALL) = true := by simp
  cases hfind : colorCodes.find? (fun c => c.isPrefixOf (d ++ l ++ RESET_ALL)) with
  | none =>
      rw [List.find?_eq_none] at hfind
      exact absurd hpref (by simpa using hfind d hd)
  | some c =>
      have hc_mem := List.mem_of_find?_eq_some hfind
      have hc_pref := List.find?_some hfind
      have hc5 : c.length = 5 := colorCodes_length c hc_mem
      have hceq : c = d := by
        have h1 : c <+: (d ++ l ++ RESET_ALL) := by simpa using hc_pref
        have h2 : d <+: (d ++ l ++ RESET_ALL) := by simpa using hpref
        rw [List.prefix_iff_eq_take] at h1 h2
        rw [hc5] at h1
        rw [hd5] at h2
        exact h1.trans h2.symm
      subst hceq
      show (stripReset ((c ++ l ++ RESET_ALL).drop c.length)).length = l.length
      rw [List.append_assoc, List.drop_left, stripReset_append]

theorem visibleLen_reset (l : Line) (he : escFree l) :
    visibleLen (l ++ RESET_ALL) = l.length := by
  unfold visibleLen
  rw [stripColorCode_reset_of_escFree l he, stripReset_append]

theorem visibleLen_plain (l : Line) (he : escFree l) : visibleLen l = l.length := by
  unfold visibleLen
  rw [stripColorCode_of_escFree l he]
  unfold stripReset
  rw [if_neg]
  intro hsufb
  have hsuf : RESET_ALL <:+ l := by simpa using hsufb
  obtain ⟨t, rfl⟩ := hsuf
  exact he (List.mem_append_right t (by decide))

theorem colorGet_mem_or_nil (k : Line) : colorGet k ∈ colorCodes ∨ colorGet k = [] := by
  unfold colorGet
  cases hfind : colorMap.find? (fun p => p.1 == k) with
  | none => right; rfl
  | some pr =>
      left
      exact List.mem_map_of_mem Prod.snd (List.mem_of_find?_eq_some hfind)

theorem apply_gradient_shape (lines colors : List Line) :
    ∀ x ∈ apply_gradient lines colors, ∃ l ∈ lines, ∃ d, (d ∈ colorCodes ∨ d = []) ∧
      x = d ++ l ++ RESET_ALL := by
  intro x hx
  simp only [apply_gradient] at hx
  split at hx
  · next hn =>
      have hnil : lines = [] := List.length_eq_zero.mp hn
      subst hnil
      cases hx
  · split at hx
    · obtain ⟨p, hp, rfl⟩ := List.mem_map.mp hx
      have hp2 : p.2 ∈ lines := by
        have := List.mem_map_of_mem Prod.snd hp
        rwa [show lines.enum = List.enumFrom 0 lines from rfl, List.enumFrom_map_snd] at this
      by_cases hhalf : p.1 < lines.length / 2
      · exact ⟨p.2, hp2, colorGet (colors.getD 0 []), colorGet_mem_or_nil _, by simp [hhalf]⟩
      · exact ⟨p.2, hp2, colorGet (colors.getD 1 []), colorGet_mem_or_nil _, by simp [hhalf]⟩
    · obtain ⟨l, hl, rfl⟩ := List.mem_map.mp hx
      exact ⟨l, hl, colorGet (colors.getD 0 []), colorGet_mem_or_nil _, rfl⟩

theorem apply_colors_shape (lines : List Line) (c : Line) :
    ∀ x ∈ apply_colors lines c, ∃ l ∈ lines, ∃ d, (d ∈ colorCodes ∨ d = []) ∧
      x = d ++ l ++ RESET_ALL := by
  intro x hx
  unfold apply_colors at hx
  split at hx
  · exact apply_gradient_shape _ _ x hx
  · obtain ⟨l, hl, rfl⟩ := List.mem_map.mp hx
    exact ⟨l, hl, colorGet c, colorGet_mem_or_nil c, rfl⟩

theorem apply_colors_nil (c : Line) : apply_colors [] c = [] := by
  unfold apply_colors
  split
  · simp [apply_gradient]
  · rfl

/-- Colorizing a rectangular escape-free block preserves the common visible length. -/
theorem visibleLen_apply_colors {B : List Line} {W : Nat} (c : Line)
    (hB : ∀ x ∈ B, escFree x ∧ x.length = W) :
    ∀ l ∈ apply_colors B c, visibleLen l = W := by
  intro l hl
  obtain ⟨l0, hl0, d, hd, rfl⟩ := apply_colors_shape B c l hl
  obtain ⟨he0, hlen0⟩ := hB l0 hl0
  rcases hd with hd | rfl
  · rw [visibleLen_code d l0 hd, hlen0]
  · rw [List.nil_append, visibleLen_reset l0 he0, hlen0]

theorem escFree_compact {lines : List Line} (he : ∀ l ∈ lines, escFree l) :
    ∀ l ∈ compactLines lines, escFree l :=
  fun l hl => he l (List.mem_of_mem_filter hl)

theorem escFree_spaces_wrap {a : Line} (k : Nat) (hea : escFree a) :
    escFree (spaces k ++ a ++ spaces k) := by
  intro hmem
  rcases List.mem_append.mp hmem with hmem2 | hsp
  · rcases List.mem_append.mp hmem2 with hsp | hmem3
    · exact absurd (List.eq_of_mem_replicate hsp) (by decide)
    · exact hea hmem3
  · exact absurd (List.eq_of_mem_replicate hsp) (by decide)

theorem escFree_pad {lines : List Line} (p : Int) (he : ∀ l ∈ lines, escFree l) :
    ∀ l ∈ apply_padding lines p, escFree l := by
  intro l hl
  unfold apply_padding at hl
  rcases List.mem_append.mp hl with hl2 | hrep
  · rcases List.mem_append.mp hl2 with hrep | hmap
    · rw [List.eq_of_mem_replicate hrep]
      intro hf
      cases hf
    · obtain ⟨a, ha, rfl⟩ := List.mem_map.mp hmap
      exact escFree_spaces_wrap p.toNat (he a ha)
  · rw [List.eq_of_mem_replicate hrep]
    intro hf
    cases hf

theorem escFree_nil : escFree [] := by
  intro h
  cases h

theorem escFree_append {x y : Line} (hx : escFree x) (hy : escFree y) : escFree (x ++ y) := by
  intro h
  rcases List.mem_append.mp h with h | h
  · exact hx h
  · exact hy h

theorem escFree_singleton {c : Char} (hc : c ≠ ESC) : escFree [c] := by
  intro h
  exact hc (List.mem_singleton.mp h).symm

theorem escFree_replicate_char {c : Char} (n : Nat) (hc : c ≠ ESC) :
    escFree (List.replicate n c) := by
  intro h
  exact hc (List.eq_of_mem_replicate h).symm

theorem escFree_ljust {a : Line} (w : Nat) (ha : escFree a) : escFree (ljust a w) :=
  escFree_append ha (escFree_replicate_char _ (by decide))

/-- Which lines a framed block consists of: the top rule, a wrapped content line, or
the bottom rule. -/
theorem apply_border_shape {lines : List Line} (style : Style) (hne : lines ≠ []) :
    ∀ x ∈ apply_border lines style,
      x = style.get_border_chars.tl ++
          List.flatten (List.replicate (maxWidth lines + 2) style.get_border_chars.h) ++
          style.get_border_chars.tr ∨
      (∃ a ∈ lines, x = style.get_border_chars.v ++ [' '] ++ ljust a (maxWidth lines) ++
          [' '] ++ style.get_border_chars.v) ∨
      x = style.get_border_chars.bl ++
          List.flatten (List.replicate (maxWidth lines + 2) style.get_border_chars.h) ++
          style.get_border_chars.br := by
  intro x hx
  simp only [apply_border, if_neg hne, List.mem_cons, List.mem_append, List.mem_map,
    List.mem_singleton] at hx
  rcases hx with rfl | ⟨a, ha, rfl⟩ | rfl | hf
  · exact Or.inl rfl
  · exact Or.inr (Or.inl ⟨a, ha, rfl⟩)
  · exact Or.inr (Or.inr rfl)
  · cases hf

/-- Framing a non-empty escape-free block: every output line is escape-free and has
length maxWidth + 4 (border kind other than none). -/
theorem border_escFree_len {lines : List Line} {style : Style}
    (hb : style.border ≠ BorderStyle.none) (hne : lines ≠ [])
    (he : ∀ l ∈ lines, escFree l) :
    ∀ x ∈ apply_border lines style, escFree x ∧ x.length = maxWidth lines + 4 := by
  obtain ⟨c1, c2, c3, c4, c5, c6, hbc, h1, h2, h3, h4, h5, h6⟩ :=
    border_glyphs_singleton style hb
  intro x hx
  rcases apply_border_shape style hne x hx with hxe | ⟨a, ha, hxe⟩ | hxe
  · rw [hbc] at hxe
    dsimp only at hxe
    rw [flatten_replicate_singleton] at hxe
    subst hxe
    exact ⟨escFree_append (escFree_append (escFree_singleton h1)
      (escFree_replicate_char _ h5)) (escFree_singleton h2), by simp⟩
  · rw [hbc] at hxe
    dsimp only at hxe
    subst hxe
    refine ⟨escFree_append (escFree_append (escFree_append (escFree_append
      (escFree_singleton h6) (escFree_singleton (by decide)))
        (escFree_ljust _ (he a ha))) (escFree_singleton (by decide)))
          (escFree_singleton h6), ?_⟩
    have hle := le_maxWidth_of_mem ha
    simp [length_ljust]
    omega
  · rw [hbc] at hxe
    dsimp only at hxe
    rw [flatten_replicate_singleton] at hxe
    subst hxe
    exact ⟨escFree_append (escFree_append (escFree_singleton h3)
      (escFree_replicate_char _ h5)) (escFree_singleton h4), by simp⟩

/-- C1 counterexample: with padding 1 and no border, the composed output of the
pipeline on the one-line block ["a"] has lines of visible lengths 0, 3, 0 -- the
inserted vertical padding lines stay empty, so the block is not rectangular. -/
theorem padding_only_not_rectangular :
    ¬ ∀ l1 ∈ styleLines { defaultStyle with padding := 1 } [['a']],
        ∀ l2 ∈ styleLines { defaultStyle with padding := 1 } [['a']],
          visibleLen l1 = visibleLen l2 := by
  decide

/-- C1 as amended: for every style whose border is not none (the padding-only case is
refuted by the counterexample), every line of the composed output of the pipeline on
an escape-free input block has the same visible (decoration-exclusive) length. -/
theorem bordered_output_rectangular (style : Style) (lines : List Line)
    (hb : style.border ≠ BorderStyle.none) (he : ∀ l ∈ lines, escFree l) :
    ∃ w, ∀ l ∈ styleLines style lines, visibleLen l = w := by
  have hcolor : ∀ (B : List Line) (W : Nat), (∀ x ∈ B, escFree x ∧ x.length = W) →
      ∀ l ∈ (match style.color with
        | some c => if c ≠ "" then apply_colors B c.toList else B
        | Option.none => B), visibleLen l = W := by
    intro B W hB
    cases style.color with
    | none =>
        intro l hl
        obtain ⟨hesc, hlen⟩ := hB l hl
        rw [visibleLen_plain l hesc, hlen]
    | some c =>
        show ∀ l ∈ (if c ≠ "" then apply_colors B c.toList else B), visibleLen l = W
        by_cases hcstr : c = ""
        · rw [if_neg (fun hcon => hcon hcstr)]
          intro l hl
          obtain ⟨hesc, hlen⟩ := hB l hl
          rw [visibleLen_plain l hesc, hlen]
        · rw [if_pos hcstr]
          exact visibleLen_apply_colors c.toList hB
  unfold styleLines
  dsimp only
  rw [if_pos hb]
  have he0 : ∀ l ∈ (if style.compact then compactLines lines else lines), escFree l := by
    split
    · exact escFree_compact he
    · exact he
  have he1 : ∀ l ∈ (if style.padding ≠ 0 then
      apply_padding (if style.compact then compactLines lines else lines) style.padding
      else (if style.compact then compactLines lines else lines)), escFree l := by
    split
    · exact escFree_pad style.padding he0
    · exact he0
  by_cases hnil : (if style.padding ≠ 0 then
      apply_padding (if style.compact then compactLines lines else lines) style.padding
      else (if style.compact then compactLines lines else lines)) = []
  · rw [hnil]
    have hbnil : apply_border [] style = [] := by simp [apply_border]
    rw [hbnil]
    exact ⟨0, hcolor [] 0 (by intro x hx; cases hx)⟩
  · exact ⟨maxWidth (if style.padding ≠ 0 then
      apply_padding (if style.compact then compactLines lines else lines) style.padding
      else (if style.compact then compactLines lines else lines)) + 4,
      hcolor _ _ (border_escFree_len hb hnil he1)⟩

/-- C1 witness: the full pipeline (compact, pad, frame, colorize) at a concrete style
with a single border, padding 2 and the color red is rectangular in visible length. -/
theorem bordered_output_rectangular_witness :
    ∃ w, ∀ l ∈ styleLines rectWitnessStyle [['a', 'b'], ['c']], visibleLen l = w :=
  bordered_output_rectangular rectWitnessStyle [['a', 'b'], ['c']] (by decide) (by decide)

end Phontom
